import Mathlib

/-!
# Velociraptor: queue-watch subscriptions and the auditd reassembly pipeline

A shallow embedding of `services/journal/utils.go` (`WatchForCollectionWithCB`,
`WatchQueueWithCB`) and of `vql/parsers/syslog/auditd.go` (`AuditdPlugin.Call`,
`WatchAuditdPlugin.Call`, `streamHandler`).

Side effects (handler calls, processor calls, wait-group operations, channel
operations) are recorded as traces of events, so that "is invoked exactly once",
"is never invoked" and "happens before" become statements about lists.
-/

namespace Velociraptor

/-! ## Rows: `ordereddict.Dict` -/

/-- Go errors are represented by their message. -/
abbrev Error := String

/-- A value held in a field of an `ordereddict.Dict` (a Go `interface{}`): a
`string`, a `[]byte` (given by the string it converts to), a non-nil `*string`
(given by the string it points to), an integer, a boolean, or a value of any
other type. -/
inductive Value where
  | str (s : String)
  | bytes (b : String)
  | strptr (s : String)
  | int (n : Int)
  | bool (b : Bool)
  | other (tag : Nat)
  deriving DecidableEq, Repr

/-- An `ordereddict.Dict`: an ordered mapping from field names to values. -/
abbrev Dict := List (String × Value)

/-- `Dict.Get(key)`: the value of the field and whether it is present
(`none` is Go's `(nil, false)`). -/
def Dict.Get (row : Dict) (key : String) : Option Value :=
  row.lookup key

/-- The conversion `to_string` used by `Dict.GetString`: a `string` is returned
as it is, a `*string` is dereferenced, a `[]byte` is converted with `string(t)`;
a value of any other type gives `("", false)`. -/
def Value.to_string : Value → String × Bool
  | Value.str s => (s, true)
  | Value.strptr s => (s, true)
  | Value.bytes b => (b, true)
  | _ => ("", false)

/-- `Dict.GetString(key)`: the field converted to a string; `("", false)` when
the field is missing or its value does not convert. -/
def Dict.GetString (row : Dict) (key : String) : String × Bool :=
  match Dict.Get row key with
  | some v =>
    if (Value.to_string v).2 then ((Value.to_string v).1, true) else ("", false)
  | none => ("", false)

/-! ## `services/journal/utils.go` -/

namespace Journal

/-- The part of `flows_proto.ArtifactCollectorContext` read by the processor. -/
structure ArtifactCollectorContext where
  ArtifactsWithResults : List String
  deriving DecidableEq, Repr

/-- Modelled from the spec: `utils.InString` is not among the source files; the
spec reads the test as "the artifact name is absent from the flow's
result-bearing artifact set", so it is a linear membership scan of the slice. -/
def InString : List String → String → Bool
  | [], _ => false
  | x :: hay, needle => if x = needle then true else InString hay needle

/-- What one call of a row processor did: the error it returned (`none` is Go's
`nil`), the state it left, and the handler invocations it made, in order, each
with its `(client_id, flow_id)` arguments. -/
structure ProcResult (σ : Type) where
  err : Option Error
  st : σ
  calls : List (String × String)

/-- The caller's handler `func(ctx, config_obj, client_id, flow_id) error`,
acting on the caller's state. -/
abbrev Handler (σ : Type) := String → String → σ → Option Error × σ

/-- A row processor `func(ctx, config_obj, row) error`. -/
abbrev Processor (σ : Type) := Dict → σ → ProcResult σ

/-- The row processor built by `WatchForCollectionWithCB` (the closure of lines
28-52). `parse` stands for `utils.ParseIntoProtobuf` applied to the result of
`row.Get("Flow")`. -/
def collectionProcessor {σ : Type}
    (parse : Option Value → Except Error ArtifactCollectorContext)
    (artifact : String) (handler : Handler σ) : Processor σ :=
  fun row st =>
    match parse (Dict.Get row "Flow") with
    | Except.error err => { err := some err, st := st, calls := [] }
    | Except.ok flow =>
      -- This is not what we are looking for.
      if !InString flow.ArtifactsWithResults artifact then
        { err := none, st := st, calls := [] }
      else
        let client_id := (Dict.GetString row "ClientId").1
        if client_id = "" then
          { err := some "Unknown ClientId", st := st, calls := [] }
        else
          let flow_id := (Dict.GetString row "FlowId").1
          let r := handler client_id flow_id st
          { err := r.1, st := r.2, calls := [(client_id, flow_id)] }

/-- Observable actions of `WatchQueueWithCB` and of its subscriber goroutine. -/
inductive Event where
  | getJournal
  | watch (queue : String)
  | wgAdd
  | spawn
  | processor (row : Dict)
  | handler (client_id flow_id : String)
  | log (err : Error)
  | wgDone
  | cancel
  deriving DecidableEq, Repr

/-- The receive side of `qm_chan`: the rows the queue provider delivers, in
order, and whether it closes the channel after the last of them (`closes`) or
leaves it open with nothing more to receive. -/
structure Chan where
  rows : List Dict
  closes : Bool

/-- The journal service: `Watch(ctx, queue)` yields the channel of that queue. -/
structure JournalService where
  Watch : String → Chan

/-- The scheduling of one subscription. `cancelAt = some k` says the context is
cancelled before the loop evaluates its `select` for the k-th time (counting
from 0), `none` that it is never cancelled. `pick i` is the choice Go's `select`
makes at iteration `i` when both cases are ready: `true` takes `<-ctx.Done()`,
`false` takes the receive from `qm_chan`. -/
structure Sched where
  cancelAt : Option Nat
  pick : Nat → Bool

/-- Whether `ctx.Done()` is ready at iteration `i`. -/
def Sched.ctxDone (s : Sched) (i : Nat) : Bool :=
  match s.cancelAt with
  | some k => decide (k ≤ i)
  | none => false

/-- The outcome of the subscriber goroutine: whether its function returned (it
does not when it waits forever on an open, silent channel with a context that is
never cancelled), the final state and the events of the loop body. -/
structure LoopResult (σ : Type) where
  returned : Bool
  st : σ
  trace : List Event

/-- The events of one processor call in the loop body (lines 83-88): the call,
the handler invocations it made, and the log line when it returned an error. -/
def bodyEvents {σ : Type} (row : Dict) (r : ProcResult σ) : List Event :=
  Event.processor row :: (r.calls.map (fun c => Event.handler c.1 c.2) ++
    (match r.err with
     | some err => [Event.log err]
     | none => []))

/-- The `for { select { ... } }` loop of the goroutine (lines 77-93), at
iteration `i` with `rows` still to be delivered. -/
def subscriberLoop {σ : Type} (processor : Processor σ) (closes : Bool) (s : Sched) :
    Nat → List Dict → σ → LoopResult σ
  | _, [], st =>
    -- nothing to receive: `!ok` when the channel is closed, otherwise the loop
    -- waits for `ctx.Done()`.
    if closes || s.cancelAt.isSome then { returned := true, st := st, trace := [] }
    else { returned := false, st := st, trace := [] }
  | i, row :: rest, st =>
    if s.ctxDone i && s.pick i then { returned := true, st := st, trace := [] }
    else
      let r := processor row st
      let k := subscriberLoop processor closes s (i + 1) rest r.st
      { returned := k.returned, st := k.st, trace := bodyEvents row r ++ k.trace }

/-- The result of `WatchQueueWithCB`: the error returned to the caller, and the
events and final state of the whole run, the goroutine included. -/
structure WatchResult (σ : Type) where
  ret : Option Error
  st : σ
  trace : List Event
  returned : Bool

/-- `WatchQueueWithCB` (lines 56-97). `getJournal` is the result of
`services.GetJournal()`. The deferred calls run when the goroutine function
returns, last deferred first: `wg.Done()`, then `cancel()`. -/
def WatchQueueWithCB {σ : Type} (getJournal : Except Error JournalService) (s : Sched)
    (artifact : String) (processor : Processor σ) (st : σ) : WatchResult σ :=
  match getJournal with
  | Except.error err => { ret := some err, st := st, trace := [Event.getJournal], returned := false }
  | Except.ok journal =>
    let qm_chan := journal.Watch artifact
    let k := subscriberLoop processor qm_chan.closes s 0 qm_chan.rows st
    { ret := none
      st := k.st
      trace := [Event.getJournal, Event.watch artifact, Event.wgAdd, Event.spawn] ++ k.trace ++
        (if k.returned then [Event.wgDone, Event.cancel] else [])
      returned := k.returned }

/-- `WatchForCollectionWithCB` (lines 18-53). -/
def WatchForCollectionWithCB {σ : Type} (getJournal : Except Error JournalService) (s : Sched)
    (parse : Option Value → Except Error ArtifactCollectorContext)
    (artifact : String) (handler : Handler σ) (st : σ) : WatchResult σ :=
  WatchQueueWithCB getJournal s "System.Flow.Completion"
    (collectionProcessor parse artifact handler) st

/-- The rows on which the processor was invoked, in order. -/
def processorCalls : List Event → List Dict
  | [] => []
  | Event.processor row :: t => row :: processorCalls t
  | _ :: t => processorCalls t

end Journal

/-! ## `vql/parsers/syslog/auditd.go` -/

namespace Syslog

/-- An `auparse.AuditMessage`: one parsed line of the audit log. -/
structure AuditMessage where
  Sequence : Nat
  RecordType : String
  Timestamp : Nat
  RawData : String
  deriving DecidableEq, Repr

/-- An `aucoalesce.Event`, sent on the output channel as a `vfilter.Row`. -/
structure CoalescedEvent where
  fields : Dict
  deriving DecidableEq, Repr

/-- What a `streamHandler` callback does: a send on `output_chan`, or a line
written with `scope.Log`. -/
inductive Action where
  | send (event : CoalescedEvent)
  | log (msg : String)
  deriving DecidableEq, Repr

/-- `streamHandler.outputMultipleMessages` (lines 93-99). `coalesce` stands for
`aucoalesce.CoalesceMessages`. -/
def streamHandler.outputMultipleMessages
    (coalesce : List AuditMessage → Except Error CoalescedEvent)
    (msgs : List AuditMessage) : List Action :=
  match coalesce msgs with
  | Except.error _ => []
  | Except.ok event => [Action.send event]

/-- `streamHandler.ReassemblyComplete` (lines 85-87). -/
def streamHandler.ReassemblyComplete
    (coalesce : List AuditMessage → Except Error CoalescedEvent)
    (msgs : List AuditMessage) : List Action :=
  streamHandler.outputMultipleMessages coalesce msgs

/-- `streamHandler.EventsLost` (lines 89-91). -/
def streamHandler.EventsLost (count : Int) : List Action :=
  [Action.log ("Detected the loss of " ++ toString count ++ " sequences.")]

/-- The events that the `streamHandler` callbacks send on `output_chan` when the
Reassembler hands them the completed groups `groups`, one call of
`ReassemblyComplete` for each group, in order. -/
def callbackSends (coalesce : List AuditMessage → Except Error CoalescedEvent) :
    List (List AuditMessage) → List CoalescedEvent
  | [] => []
  | msgs :: groups =>
    (streamHandler.ReassemblyComplete coalesce msgs).filterMap (fun a =>
      match a with
      | Action.send event => some event
      | Action.log _ => none) ++ callbackSends coalesce groups

/-- What a plugin call depends on: the result of `libaudit.NewReassembler`, the
line parser `auparse.ParseLogLine`, the coalescer `aucoalesce.CoalesceMessages`,
the rows the scanner (`ScannerPlugin` or `_WatchSyslogPlugin`) yields before it
closes its channel, and the groups the Reassembler completes (hands to
`ReassemblyComplete`) inside a `PushMessage`, given the messages pushed before
and the one pushed now, and inside `Close`, given the messages pushed. The last
two are left arbitrary: whatever the Reassembler did in a run is one choice of
them, since no two pushes of a run have the same messages before them. -/
structure Env where
  NewReassembler : Except Error Unit
  ParseLogLine : String → Except Error AuditMessage
  CoalesceMessages : List AuditMessage → Except Error CoalescedEvent
  rows : List Dict
  completedOnPush : List AuditMessage → AuditMessage → List (List AuditMessage)
  completedOnClose : List AuditMessage → List (List AuditMessage)

/-- Program points of the goroutine started by `Call` (lines 35-75, 116-156). -/
inductive MainPc where
  | start
  | scanning (rows : List Dict)
  | deferClose
  | deferCloseOutput
  | finished
  | crashed
  deriving DecidableEq, Repr

/-- The maintenance goroutine (lines 47-61, 128-142). -/
inductive TickerSt where
  | notStarted
  | running
  | exited
  deriving DecidableEq, Repr

/-- The Reassembler: not created, created and not yet closed, closed. -/
inductive ReasmSt where
  | absent
  | live
  | closed
  deriving DecidableEq, Repr

/-- Observable actions of a plugin call. `received` is a send on `output_chan`
completing: the channel is unbuffered, so a send completes when the reader of
the plugin's output receives the event. -/
inductive PEvent where
  | newReassembler (ok : Bool)
  | log (msg : String)
  | spawnTicker
  | push (msg : AuditMessage)
  | panic
  | reassemblerClose
  | closeOutput
  | ctxCancel
  | maintain (failed : Bool)
  | tickerExit
  | received (event : CoalescedEvent)
  deriving DecidableEq, Repr

/-- The state of one plugin call: where its two goroutines are, whether the
context is cancelled, the Reassembler, the output channel, the sends on
`output_chan` that the main goroutine (inside `PushMessage` or `Close`) and the
maintenance goroutine (inside `Maintain`) still have to complete before they go
on, and what happened so far. -/
structure PState where
  pc : MainPc
  panicking : Bool
  ticker : TickerSt
  ctxDone : Bool
  reasm : ReasmSt
  outputClosed : Bool
  mainSends : List CoalescedEvent
  tickerSends : List CoalescedEvent
  trace : List PEvent
  deriving DecidableEq, Repr

/-- The state in which `Call` has just started its goroutine. -/
def PState.init : PState :=
  { pc := MainPc.start, panicking := false, ticker := TickerSt.notStarted, ctxDone := false,
    reasm := ReasmSt.absent, outputClosed := false, mainSends := [], tickerSends := [],
    trace := [] }

/-- What the scheduler lets happen next: a step of the main goroutine; the
cancellation of the caller's context; the maintenance goroutine taking the
`<-t.C` case and calling `reassembler.Maintain()`, with whether that call fails
for a reason of its own and the groups it completes; the maintenance goroutine
taking the `<-ctx.Done()` case; the reader of the output channel receiving the
event that the maintenance goroutine (`fromTicker`) or the main goroutine is
sending. -/
inductive Step where
  | main
  | cancel
  | tick (maintainFails : Bool) (completed : List (List AuditMessage))
  | tickerDone
  | recv (fromTicker : Bool)
  deriving DecidableEq, Repr

/-- The messages pushed into the Reassembler, in order. -/
def pushes : List PEvent → List AuditMessage
  | [] => []
  | PEvent.push msg :: t => msg :: pushes t
  | _ :: t => pushes t

/-- One step of the main goroutine, which is not in the middle of a send. The
deferred calls run when the function returns or panics, last deferred first:
`reassembler.Close()` (when it was deferred) and then `close(output_chan)`. A
`Line` that is not a string makes the type assertion `line.(string)` panic;
nothing recovers, so the process dies once the deferred calls have run. Closing
`output_chan` while the maintenance goroutine is blocked in a send on it makes
that send panic, which also kills the process. -/
def mainStep (name : String) (env : Env) (s : PState) : Option PState :=
  match s.pc with
  | MainPc.start =>
    match env.NewReassembler with
    | Except.error err =>
      some { s with pc := MainPc.deferCloseOutput,
                    trace := s.trace ++ [PEvent.newReassembler false, PEvent.log (name ++ ": " ++ err)] }
    | Except.ok _ =>
      some { s with pc := MainPc.scanning env.rows, reasm := ReasmSt.live,
                    ticker := TickerSt.running,
                    trace := s.trace ++ [PEvent.newReassembler true, PEvent.spawnTicker] }
  | MainPc.scanning [] => some { s with pc := MainPc.deferClose }
  | MainPc.scanning (row :: rest) =>
    match Dict.Get row "Line" with
    | none => some { s with pc := MainPc.scanning rest }
    | some (Value.str line) =>
      match env.ParseLogLine line with
      | Except.ok auditMsg =>
        some { s with pc := MainPc.scanning rest,
                      mainSends := callbackSends env.CoalesceMessages
                        (env.completedOnPush (pushes s.trace) auditMsg),
                      trace := s.trace ++ [PEvent.push auditMsg] }
      | Except.error _ => some { s with pc := MainPc.scanning rest }
    | some _ =>
      some { s with pc := MainPc.deferClose, panicking := true, trace := s.trace ++ [PEvent.panic] }
  | MainPc.deferClose =>
    some { s with pc := MainPc.deferCloseOutput, reasm := ReasmSt.closed,
                  mainSends := callbackSends env.CoalesceMessages
                    (env.completedOnClose (pushes s.trace)),
                  trace := s.trace ++ [PEvent.reassemblerClose] }
  | MainPc.deferCloseOutput =>
    some { s with pc := if s.panicking || !s.tickerSends.isEmpty then MainPc.crashed
                        else MainPc.finished,
                  outputClosed := true, trace := s.trace ++ [PEvent.closeOutput] }
  | MainPc.finished => none
  | MainPc.crashed => none

/-- One scheduled step of a plugin call; `none` when the step is not enabled.
A goroutine that is in the middle of a send on `output_chan` does nothing else
until the reader has received the event. `Maintain()` on a closed Reassembler
returns an error, which ends the maintenance goroutine (lines 56-58, 137-139); a
failing `Maintain()` completes no group. -/
def callStep (name : String) (env : Env) (st : Step) (s : PState) : Option PState :=
  if s.pc = MainPc.crashed then none
  else
    match st with
    | Step.main => if s.mainSends = [] then mainStep name env s else none
    | Step.cancel => some { s with ctxDone := true, trace := s.trace ++ [PEvent.ctxCancel] }
    | Step.tick maintainFails completed =>
      if s.ticker = TickerSt.running ∧ s.tickerSends = [] then
        if maintainFails = true ∨ s.reasm = ReasmSt.closed then
          some { s with ticker := TickerSt.exited,
                        trace := s.trace ++ [PEvent.maintain true, PEvent.tickerExit] }
        else
          some { s with tickerSends := callbackSends env.CoalesceMessages completed,
                        trace := s.trace ++ [PEvent.maintain false] }
      else none
    | Step.tickerDone =>
      if s.ticker = TickerSt.running ∧ s.tickerSends = [] ∧ s.ctxDone = true then
        some { s with ticker := TickerSt.exited, trace := s.trace ++ [PEvent.tickerExit] }
      else none
    | Step.recv fromTicker =>
      if fromTicker then
        match s.tickerSends with
        | event :: rest =>
          some { s with tickerSends := rest, trace := s.trace ++ [PEvent.received event] }
        | [] => none
      else
        match s.mainSends with
        | event :: rest =>
          some { s with mainSends := rest, trace := s.trace ++ [PEvent.received event] }
        | [] => none

/-- A scheduled execution of a plugin call. -/
def callRun (name : String) (env : Env) : List Step → PState → Option PState
  | [], s => some s
  | st :: rest, s =>
    match callStep name env st s with
    | some s2 => callRun name env rest s2
    | none => none

/-- `AuditdPlugin.Call` (lines 30-78), run under a schedule. -/
def AuditdPlugin.Call (env : Env) (steps : List Step) : Option PState :=
  callRun "parse_auditd" env steps PState.init

/-- `WatchAuditdPlugin.Call` (lines 111-159), run under a schedule. -/
def WatchAuditdPlugin.Call (env : Env) (steps : List Step) : Option PState :=
  callRun "watch_auditd" env steps PState.init

/-- The successful parses of the rows' `Line` values, in source order. -/
def parsedLines (parse : String → Except Error AuditMessage) (rows : List Dict) :
    List AuditMessage :=
  rows.filterMap (fun row =>
    match Dict.Get row "Line" with
    | some (Value.str line) =>
      match parse line with
      | Except.ok msg => some msg
      | Except.error _ => none
    | _ => none)

/-- Every `Line` value present in the rows is a string. -/
def LinesAreStrings (rows : List Dict) : Prop :=
  ∀ row ∈ rows, ∀ v, Dict.Get row "Line" = some v → ∃ line, v = Value.str line

/-- The events that follow the first `reassembler.Close()` of a trace; empty
when the Reassembler has not been closed. -/
def afterClose : List PEvent → List PEvent
  | [] => []
  | PEvent.reassemblerClose :: t => t
  | _ :: t => afterClose t

/-- The number of `Maintain()` calls in a list of events. -/
def maintainCalls : List PEvent → Nat
  | [] => 0
  | PEvent.maintain _ :: t => maintainCalls t + 1
  | _ :: t => maintainCalls t

/-- Either the Reassembler was created and is closed, or its creation failed
and then neither a Reassembler nor a maintenance goroutine exists. -/
def ReasmReleased (env : Env) (s : PState) : Prop :=
  (s.reasm = ReasmSt.closed ∧ ∃ u, env.NewReassembler = Except.ok u) ∨
  (s.reasm = ReasmSt.absent ∧ s.ticker = TickerSt.notStarted ∧
    ∃ err, env.NewReassembler = Except.error err)

/-- The maintenance goroutine exits only through `<-ctx.Done()` or a failed
`Maintain()`. -/
def TickerExitJustified (s : PState) : Prop :=
  s.ticker = TickerSt.exited → s.ctxDone = true ∨ PEvent.maintain true ∈ s.trace

/-- After the Reassembler is closed the maintenance goroutine calls `Maintain()`
at most once more; that call fails, and the goroutine has exited once it is
made. -/
def AtMostOneMaintainAfterClose (s : PState) : Prop :=
  maintainCalls (afterClose s.trace) ≤ 1 ∧
  PEvent.maintain false ∉ afterClose s.trace ∧
  (maintainCalls (afterClose s.trace) = 1 → s.ticker = TickerSt.exited)

/-- Invariant of a plugin call relating the program point of the main goroutine
to the Reassembler and the output channel. -/
def lifecycleInv (env : Env) (s : PState) : Prop :=
  TickerExitJustified s ∧
  (match s.pc with
   | MainPc.start =>
     s.reasm = ReasmSt.absent ∧ s.ticker = TickerSt.notStarted ∧ s.outputClosed = false
   | MainPc.scanning _ =>
     s.reasm = ReasmSt.live ∧ s.outputClosed = false ∧ ∃ u, env.NewReassembler = Except.ok u
   | MainPc.deferClose =>
     s.reasm = ReasmSt.live ∧ s.outputClosed = false ∧ ∃ u, env.NewReassembler = Except.ok u
   | MainPc.deferCloseOutput => s.outputClosed = false ∧ ReasmReleased env s
   | MainPc.finished => ReasmReleased env s
   | MainPc.crashed => ReasmReleased env s)

/-- Invariant of a plugin call relating the closing of the Reassembler to the
`Maintain()` calls of the trace. -/
def maintainInv (s : PState) : Prop :=
  (s.reasm = ReasmSt.closed ↔ PEvent.reassemblerClose ∈ s.trace) ∧
  AtMostOneMaintainAfterClose s

/-- Invariant of a plugin call relating the messages pushed so far to the rows
consumed from the line source. -/
def pushInv (env : Env) (s : PState) : Prop :=
  match s.pc with
  | MainPc.start => pushes s.trace = []
  | MainPc.scanning rem =>
    (∃ consumed, env.rows = consumed ++ rem ∧
      pushes s.trace = parsedLines env.ParseLogLine consumed) ∧
    LinesAreStrings rem
  | _ => pushes s.trace = parsedLines env.ParseLogLine env.rows

/-- The schedule in which the main goroutine runs alone and the reader receives
every event as soon as it is sent: one main step for each program point, each
followed by one receive per event sent at that point. -/
def drainedScan (env : Env) : List AuditMessage → List Dict → List Step
  | pushed, [] =>
    Step.main :: Step.main ::
      (List.replicate
        (callbackSends env.CoalesceMessages (env.completedOnClose pushed)).length
        (Step.recv false) ++ [Step.main])
  | pushed, row :: rest =>
    match Dict.Get row "Line" with
    | some (Value.str line) =>
      match env.ParseLogLine line with
      | Except.ok msg =>
        Step.main ::
          (List.replicate
            (callbackSends env.CoalesceMessages (env.completedOnPush pushed msg)).length
            (Step.recv false) ++ drainedScan env (pushed ++ [msg]) rest)
      | Except.error _ => Step.main :: drainedScan env pushed rest
    | _ => Step.main :: drainedScan env pushed rest

/-- The drained schedule of a whole plugin call. -/
def drainedSchedule (env : Env) : List Step :=
  Step.main :: drainedScan env [] env.rows

/-- A sample run: four rows, of which one has no `Line` field and one holds a
line that the parser rejects; the Reassembler completes a group at each
`type=EOE` line, and that group coalesces to one event. -/
def sampleEnv : Env :=
  { NewReassembler := Except.ok ()
    ParseLogLine := fun line =>
      if line = "garbage" then Except.error "invalid audit message header"
      else Except.ok { Sequence := line.length, RecordType := "SYSCALL", Timestamp := 0,
                       RawData := line }
    CoalesceMessages := fun msgs => Except.ok { fields := [("count", Value.int msgs.length)] }
    rows := [[("Line", Value.str "type=SYSCALL")], [("Offset", Value.int 12)],
      [("Line", Value.str "garbage")], [("Line", Value.str "type=EOE")]]
    completedOnPush := fun pushed msg =>
      if msg.RawData = "type=EOE" then [pushed ++ [msg]] else []
    completedOnClose := fun _ => [] }

end Syslog

/-! ## Theorems: the flow-completion filter -/

namespace Journal

theorem InString_iff_mem (hay : List String) (needle : String) :
    InString hay needle = true ↔ needle ∈ hay := by
  induction hay with
  | nil => simp [InString]
  | cons x hay ih =>
    by_cases hx : x = needle
    · simp [InString, hx]
    · have hx2 : ¬ needle = x := fun h => hx h.symm
      simp [InString, hx, hx2, ih]

theorem InString_eq_false_iff (hay : List String) (needle : String) :
    InString hay needle = false ↔ needle ∉ hay := by
  rw [← InString_iff_mem]
  cases InString hay needle <;> simp

/-- C1 (as stated, refuted): a row whose ClientId is empty, whose Flow payload
decodes to the artifact set A and whose target artifact is B is not rejected:
the processor returns nil. -/
theorem C1_counterexample :
    (Dict.GetString [("Flow", Value.other 0), ("ClientId", Value.str "")] "ClientId").1 = "" ∧
    (collectionProcessor (fun _ => Except.ok { ArtifactsWithResults := ["A"] }) "B"
      (fun _ _ (u : Unit) => (none, u))
      [("Flow", Value.other 0), ("ClientId", Value.str "")] ()).err = none := by
  decide

/-- C1 (amended): for a row whose ClientId is empty or missing, and for every
target artifact, the processor never invokes the handler and leaves the state
alone; it returns a non-nil error exactly when the Flow payload fails to decode
or the target artifact is in the decoded ArtifactsWithResults, and returns nil
when the payload decodes and the artifact is absent. -/
theorem C1_empty_client_id {σ : Type}
    (parse : Option Value → Except Error ArtifactCollectorContext)
    (artifact : String) (handler : Handler σ) (row : Dict) (st : σ)
    (h : (Dict.GetString row "ClientId").1 = "") :
    (collectionProcessor parse artifact handler row st).calls = [] ∧
    (collectionProcessor parse artifact handler row st).st = st ∧
    ((collectionProcessor parse artifact handler row st).err ≠ none ↔
      ((∃ err, parse (Dict.Get row "Flow") = Except.error err) ∨
       (∃ flow, parse (Dict.Get row "Flow") = Except.ok flow ∧
          artifact ∈ flow.ArtifactsWithResults))) := by
  unfold collectionProcessor
  cases hp : parse (Dict.Get row "Flow") with
  | error err => simp
  | ok flow =>
    by_cases hin : InString flow.ArtifactsWithResults artifact = true
    · have hm := (InString_iff_mem _ _).1 hin
      simp [hin, h, hm]
    · have hf : InString flow.ArtifactsWithResults artifact = false := by
        cases hc : InString flow.ArtifactsWithResults artifact
        · rfl
        · exact absurd hc hin
      have hm := (InString_eq_false_iff _ _).1 hf
      simp [hf, hm]

theorem C1_empty_client_id_witness :
    (collectionProcessor (fun _ => Except.ok { ArtifactsWithResults := ["A", "B"] }) "B"
      (fun _ _ (u : Unit) => (none, u)) [("Flow", Value.other 0)] ()).calls = [] ∧
    (collectionProcessor (fun _ => Except.ok { ArtifactsWithResults := ["A", "B"] }) "B"
      (fun _ _ (u : Unit) => (none, u)) [("Flow", Value.other 0)] ()).err ≠ none := by
  have h := C1_empty_client_id (fun _ => Except.ok { ArtifactsWithResults := ["A", "B"] }) "B"
    (fun _ _ (u : Unit) => (none, u)) [("Flow", Value.other 0)] () (by decide)
  exact ⟨h.1, h.2.2.2 (Or.inr ⟨{ ArtifactsWithResults := ["A", "B"] }, rfl, by decide⟩)⟩

/-- C2: the processor built by WatchForCollectionWithCB invokes the handler if
and only if the Flow payload decodes, the target artifact is a member of the
decoded ArtifactsWithResults and the row's ClientId is non-empty; it then
invokes it exactly once, with the row's ClientId and FlowId, and returns what
the handler returns (error and state). -/
theorem C2_handler_invoked_iff {σ : Type}
    (parse : Option Value → Except Error ArtifactCollectorContext)
    (artifact : String) (handler : Handler σ) (row : Dict) (st : σ) :
    ((collectionProcessor parse artifact handler row st).calls ≠ [] ↔
      ((∃ flow, parse (Dict.Get row "Flow") = Except.ok flow ∧
          artifact ∈ flow.ArtifactsWithResults) ∧
       (Dict.GetString row "ClientId").1 ≠ "")) ∧
    ((collectionProcessor parse artifact handler row st).calls ≠ [] →
      (collectionProcessor parse artifact handler row st).calls =
          [((Dict.GetString row "ClientId").1, (Dict.GetString row "FlowId").1)] ∧
      (collectionProcessor parse artifact handler row st).err =
          (handler (Dict.GetString row "ClientId").1 (Dict.GetString row "FlowId").1 st).1 ∧
      (collectionProcessor parse artifact handler row st).st =
          (handler (Dict.GetString row "ClientId").1 (Dict.GetString row "FlowId").1 st).2) := by
  unfold collectionProcessor
  cases hp : parse (Dict.Get row "Flow") with
  | error err => simp
  | ok flow =>
    by_cases hin : InString flow.ArtifactsWithResults artifact = true
    · have hm := (InString_iff_mem _ _).1 hin
      by_cases hc : (Dict.GetString row "ClientId").1 = ""
      · simp [hin, hc, hm]
      · simp [hin, hc, hm]
    · have hf : InString flow.ArtifactsWithResults artifact = false := by
        cases hc : InString flow.ArtifactsWithResults artifact
        · rfl
        · exact absurd hc hin
      have hm := (InString_eq_false_iff _ _).1 hf
      simp [hf, hm]

theorem C2_handler_invoked_iff_witness :
    (collectionProcessor (fun _ => Except.ok { ArtifactsWithResults := ["A", "B"] }) "B"
      (fun c f (n : Nat) => (some (c ++ f), n + 1))
      [("Flow", Value.other 0), ("ClientId", Value.bytes "C.1"), ("FlowId", Value.strptr "F.2")]
      0).calls = [("C.1", "F.2")] ∧
    (collectionProcessor (fun _ => Except.ok { ArtifactsWithResults := ["A", "B"] }) "B"
      (fun c f (n : Nat) => (some (c ++ f), n + 1))
      [("Flow", Value.other 0), ("ClientId", Value.bytes "C.1"), ("FlowId", Value.strptr "F.2")]
      0).err = some "C.1F.2" := by
  have h := (C2_handler_invoked_iff (fun _ => Except.ok { ArtifactsWithResults := ["A", "B"] }) "B"
      (fun c f (n : Nat) => (some (c ++ f), n + 1))
      [("Flow", Value.other 0), ("ClientId", Value.bytes "C.1"), ("FlowId", Value.strptr "F.2")]
      0).2 (by decide)
  exact ⟨h.1, h.2.1⟩

/-- C3: when the Flow payload decodes and the decoded ArtifactsWithResults does
not contain the target artifact, the processor returns nil, invokes no handler
and leaves the state alone. -/
theorem C3_absent_artifact_skipped {σ : Type}
    (parse : Option Value → Except Error ArtifactCollectorContext)
    (artifact : String) (handler : Handler σ) (row : Dict) (st : σ)
    (flow : ArtifactCollectorContext)
    (hflow : parse (Dict.Get row "Flow") = Except.ok flow)
    (habsent : artifact ∉ flow.ArtifactsWithResults) :
    (collectionProcessor parse artifact handler row st).err = none ∧
    (collectionProcessor parse artifact handler row st).calls = [] ∧
    (collectionProcessor parse artifact handler row st).st = st := by
  have hf := (InString_eq_false_iff _ _).2 habsent
  unfold collectionProcessor
  simp [hflow, hf]

theorem C3_absent_artifact_skipped_witness :
    (collectionProcessor (fun _ => Except.ok { ArtifactsWithResults := ["A"] }) "B"
      (fun _ _ (n : Nat) => (some "handler error", n + 1))
      [("Flow", Value.other 0), ("ClientId", Value.str "C.1"), ("FlowId", Value.str "F.2")]
      0).err = none ∧
    (collectionProcessor (fun _ => Except.ok { ArtifactsWithResults := ["A"] }) "B"
      (fun _ _ (n : Nat) => (some "handler error", n + 1))
      [("Flow", Value.other 0), ("ClientId", Value.str "C.1"), ("FlowId", Value.str "F.2")]
      0).calls = [] :=
  have h := C3_absent_artifact_skipped (fun _ => Except.ok { ArtifactsWithResults := ["A"] }) "B"
      (fun _ _ (n : Nat) => (some "handler error", n + 1))
      [("Flow", Value.other 0), ("ClientId", Value.str "C.1"), ("FlowId", Value.str "F.2")]
      0 { ArtifactsWithResults := ["A"] } rfl (by decide)
  ⟨h.1, h.2.1⟩

/-! ## Theorems: the queue-watch subscriber -/

theorem processorCalls_append (a b : List Event) :
    processorCalls (a ++ b) = processorCalls a ++ processorCalls b := by
  induction a with
  | nil => rfl
  | cons e a ih => cases e <;> simp [processorCalls, ih]

theorem processorCalls_handlers (calls : List (String × String)) :
    processorCalls (calls.map (fun c => Event.handler c.1 c.2)) = [] := by
  induction calls with
  | nil => rfl
  | cons c calls ih => simp [processorCalls, ih]

theorem processorCalls_bodyEvents {σ : Type} (row : Dict) (r : ProcResult σ) :
    processorCalls (bodyEvents row r) = [row] := by
  unfold bodyEvents
  cases r.err <;> simp [processorCalls, processorCalls_append, processorCalls_handlers]

theorem count_bodyEvents {σ : Type} (row : Dict) (r : ProcResult σ) (e : Event)
    (h1 : ∀ x, e ≠ Event.processor x) (h2 : ∀ c f, e ≠ Event.handler c f)
    (h3 : ∀ x, e ≠ Event.log x) : (bodyEvents row r).count e = 0 := by
  rw [List.count_eq_zero]
  intro hmem
  unfold bodyEvents at hmem
  rcases List.mem_cons.1 hmem with h | h
  · exact h1 _ h
  · rcases List.mem_append.1 h with h | h
    · rcases List.mem_map.1 h with ⟨c, _, hc⟩
      exact h2 _ _ hc.symm
    · cases hr : r.err with
      | none => simp [hr] at h
      | some x =>
        simp [hr] at h
        exact h3 _ h

theorem subscriberLoop_count {σ : Type} (processor : Processor σ) (closes : Bool) (s : Sched)
    (e : Event) (h1 : ∀ x, e ≠ Event.processor x) (h2 : ∀ c f, e ≠ Event.handler c f)
    (h3 : ∀ x, e ≠ Event.log x) (rows : List Dict) :
    ∀ (i : Nat) (st : σ), (subscriberLoop processor closes s i rows st).trace.count e = 0 := by
  induction rows with
  | nil =>
    intro i st
    unfold subscriberLoop
    split <;> simp
  | cons row rest ih =>
    intro i st
    unfold subscriberLoop
    split
    · simp
    · simp [List.count_append, count_bodyEvents row _ e h1 h2 h3, ih]

theorem subscriberLoop_returned {σ : Type} (processor : Processor σ) (closes : Bool) (s : Sched)
    (rows : List Dict) :
    ∀ (i : Nat) (st : σ),
      (subscriberLoop processor closes s i rows st).returned = (closes || s.cancelAt.isSome) := by
  induction rows with
  | nil =>
    intro i st
    unfold subscriberLoop
    split <;> simp_all
  | cons row rest ih =>
    intro i st
    unfold subscriberLoop
    split
    · rename_i h
      have hd : s.ctxDone i = true := by
        cases hc : s.ctxDone i
        · simp [hc] at h
        · rfl
      have hs : s.cancelAt.isSome = true := by
        unfold Sched.ctxDone at hd
        cases hk : s.cancelAt with
        | none => simp [hk] at hd
        | some k => rfl
      simp [hs]
    · simp [ih]

theorem subscriberLoop_never_cancelled {σ : Type} (processor : Processor σ)
    (pick : Nat → Bool) (rows : List Dict) :
    ∀ (i : Nat) (st : σ),
      processorCalls (subscriberLoop processor true { cancelAt := none, pick := pick }
        i rows st).trace = rows ∧
      (subscriberLoop processor true { cancelAt := none, pick := pick } i rows st).st =
        rows.foldl (fun acc row => (processor row acc).st) st := by
  induction rows with
  | nil =>
    intro i st
    simp [subscriberLoop, processorCalls]
  | cons row rest ih =>
    intro i st
    have h := ih (i + 1) (processor row st).st
    simp [subscriberLoop, Sched.ctxDone, processorCalls_append, processorCalls_bodyEvents, h.1, h.2]

theorem subscriberLoop_prefix {σ : Type} (processor : Processor σ) (closes : Bool) (s : Sched)
    (rows : List Dict) :
    ∀ (i0 n : Nat) (st : σ), s.ctxDone (i0 + n) = true → s.pick (i0 + n) = true →
      ∃ j, j ≤ n ∧
        processorCalls (subscriberLoop processor closes s i0 rows st).trace = rows.take j := by
  induction rows with
  | nil =>
    intro i0 n st _ _
    refine ⟨0, Nat.zero_le _, ?_⟩
    unfold subscriberLoop
    split <;> simp [processorCalls]
  | cons row rest ih =>
    intro i0 n st hd hp
    unfold subscriberLoop
    split
    · exact ⟨0, Nat.zero_le _, by simp [processorCalls]⟩
    · rename_i hne
      cases n with
      | zero =>
        simp at hd hp
        simp [hd, hp] at hne
      | succ m =>
        have hd2 : s.ctxDone (i0 + 1 + m) = true := by
          rw [show i0 + 1 + m = i0 + (m + 1) by omega]; exact hd
        have hp2 : s.pick (i0 + 1 + m) = true := by
          rw [show i0 + 1 + m = i0 + (m + 1) by omega]; exact hp
        obtain ⟨j, hj, hcalls⟩ := ih (i0 + 1) m (processor row st).st hd2 hp2
        refine ⟨j + 1, by omega, ?_⟩
        simp [processorCalls_append, processorCalls_bodyEvents, hcalls]

/-- C4: with the context never cancelled and the rows r1..rn delivered before the
channel closes, the subscriber loop started by WatchQueueWithCB invokes the
processor exactly once on each row, in the order r1..rn, whatever the processor
returns (errors included): the rows handed to the processor are exactly the
delivered rows, the processor's state is threaded through them in order, and
the goroutine then returns. -/
theorem C4_every_row_processed_in_order {σ : Type} (processor : Processor σ)
    (rows : List Dict) (pick : Nat → Bool) (artifact : String) (st : σ) :
    processorCalls (WatchQueueWithCB
        (Except.ok { Watch := fun _ => { rows := rows, closes := true } })
        { cancelAt := none, pick := pick } artifact processor st).trace = rows ∧
    (WatchQueueWithCB
        (Except.ok { Watch := fun _ => { rows := rows, closes := true } })
        { cancelAt := none, pick := pick } artifact processor st).st =
      rows.foldl (fun acc row => (processor row acc).st) st ∧
    (WatchQueueWithCB
        (Except.ok { Watch := fun _ => { rows := rows, closes := true } })
        { cancelAt := none, pick := pick } artifact processor st).returned = true := by
  have h := subscriberLoop_never_cancelled processor pick rows 0 st
  have hr := subscriberLoop_returned processor true { cancelAt := none, pick := pick } rows 0 st
  refine ⟨?_, ?_, ?_⟩
  · simp only [WatchQueueWithCB, processorCalls_append, h.1]
    split <;> simp [processorCalls]
  · simp only [WatchQueueWithCB, h.2]
  · simp only [WatchQueueWithCB, hr]
    rfl

/-- C5: for every successfully started subscription, the wait group is
incremented exactly once; the goroutine returns exactly when the channel is
closed after its rows or the context is cancelled; and a run in which it
returned contains exactly one invocation of the cancellation function and
exactly one wg.Done (a run in which it has not returned contains none). -/
theorem C5_release_exactly_once {σ : Type} (journal : JournalService) (s : Sched)
    (artifact : String) (processor : Processor σ) (st : σ) :
    (WatchQueueWithCB (Except.ok journal) s artifact processor st).trace.count Event.wgAdd = 1 ∧
    (WatchQueueWithCB (Except.ok journal) s artifact processor st).returned =
      ((journal.Watch artifact).closes || s.cancelAt.isSome) ∧
    (WatchQueueWithCB (Except.ok journal) s artifact processor st).trace.count Event.cancel =
      (if (WatchQueueWithCB (Except.ok journal) s artifact processor st).returned then 1 else 0) ∧
    (WatchQueueWithCB (Except.ok journal) s artifact processor st).trace.count Event.wgDone =
      (if (WatchQueueWithCB (Except.ok journal) s artifact processor st).returned then 1 else 0) := by
  have hr := subscriberLoop_returned processor (journal.Watch artifact).closes s
    (journal.Watch artifact).rows 0 st
  have hc := fun (e : Event) h1 h2 h3 => subscriberLoop_count processor
    (journal.Watch artifact).closes s e h1 h2 h3 (journal.Watch artifact).rows 0 st
  have hadd := hc Event.wgAdd (by simp) (by simp) (by simp)
  have hcan := hc Event.cancel (by simp) (by simp) (by simp)
  have hdone := hc Event.wgDone (by simp) (by simp) (by simp)
  refine ⟨?_, ?_, ?_, ?_⟩
  · simp only [WatchQueueWithCB, List.count_append, hadd]
    split <;> simp
  · simp only [WatchQueueWithCB, hr]
  · simp only [WatchQueueWithCB, List.count_append, hcan]
    split <;> simp
  · simp only [WatchQueueWithCB, List.count_append, hdone]
    split <;> simp

/-- C6 (as stated, refuted): the context is cancelled before the loop's first
select and one row is available on the channel; the select takes the receive
case and the processor is invoked on that row after the cancellation. -/
theorem C6_counterexample :
    Sched.ctxDone { cancelAt := some 0, pick := fun _ => false } 0 = true ∧
    processorCalls (WatchQueueWithCB
        (Except.ok { Watch := fun _ => { rows := [[("ClientId", Value.str "C.1")]], closes := false } })
        { cancelAt := some 0, pick := fun _ => false } "System.Flow.Completion"
        (fun _ (u : Unit) => { err := none, st := u, calls := [] }) ()).trace =
      [[("ClientId", Value.str "C.1")]] := by
  decide

/-- C6 (amended): once the select of the subscriber loop takes the ctx.Done()
case, at iteration i of a cancelled context, the loop returns (the goroutine
function returns and its two deferred calls run, once each) and makes no further
processor invocation, even when rows are still available: the rows processed in
the whole run are the first j delivered rows for some j ≤ i. -/
theorem C6_no_calls_after_done_branch {σ : Type} (journal : JournalService) (s : Sched)
    (artifact : String) (processor : Processor σ) (st : σ) (i : Nat)
    (hdone : s.ctxDone i = true) (hpick : s.pick i = true) :
    (WatchQueueWithCB (Except.ok journal) s artifact processor st).returned = true ∧
    (WatchQueueWithCB (Except.ok journal) s artifact processor st).trace.count Event.wgDone = 1 ∧
    (WatchQueueWithCB (Except.ok journal) s artifact processor st).trace.count Event.cancel = 1 ∧
    ∃ j, j ≤ i ∧
      processorCalls (WatchQueueWithCB (Except.ok journal) s artifact processor st).trace =
        (journal.Watch artifact).rows.take j := by
  have hd : s.ctxDone (0 + i) = true := by rw [Nat.zero_add]; exact hdone
  have hp : s.pick (0 + i) = true := by rw [Nat.zero_add]; exact hpick
  have hsome : s.cancelAt.isSome = true := by
    unfold Sched.ctxDone at hdone
    cases hk : s.cancelAt with
    | none => simp [hk] at hdone
    | some k => rfl
  have hall : ∀ (rows : List Dict) (k : Nat) (st0 : σ),
      (subscriberLoop processor (journal.Watch artifact).closes s k rows st0).returned = true := by
    intro rows
    induction rows with
    | nil =>
      intro k st0
      simp [subscriberLoop, hsome]
    | cons row rest ih =>
      intro k st0
      unfold subscriberLoop
      split
      · rfl
      · exact ih (k + 1) _
  have hret := hall (journal.Watch artifact).rows 0 st
  have hc := fun (e : Event) h1 h2 h3 => subscriberLoop_count processor
    (journal.Watch artifact).closes s e h1 h2 h3 (journal.Watch artifact).rows 0 st
  have hcan := hc Event.cancel (by simp) (by simp) (by simp)
  have hdn := hc Event.wgDone (by simp) (by simp) (by simp)
  obtain ⟨j, hj, hcalls⟩ := subscriberLoop_prefix processor (journal.Watch artifact).closes s
    (journal.Watch artifact).rows 0 i st hd hp
  refine ⟨?_, ?_, ?_, j, hj, ?_⟩
  · simp only [WatchQueueWithCB, hret]
  · simp [WatchQueueWithCB, List.count_append, hdn, hret]
  · simp [WatchQueueWithCB, List.count_append, hcan, hret]
  · simp only [WatchQueueWithCB, processorCalls_append, hcalls]
    split <;> simp [processorCalls]

theorem C6_no_calls_after_done_branch_witness :
    (WatchQueueWithCB
        (Except.ok { Watch := fun _ =>
          { rows := [[("n", Value.int 1)], [("n", Value.int 2)], [("n", Value.int 3)]],
            closes := false } })
        { cancelAt := some 0, pick := fun n => decide (n = 1) } "q"
        (fun _ (u : Unit) => { err := none, st := u, calls := [] }) ()).returned = true ∧
    ∃ j, j ≤ 1 ∧
      processorCalls (WatchQueueWithCB
        (Except.ok { Watch := fun _ =>
          { rows := [[("n", Value.int 1)], [("n", Value.int 2)], [("n", Value.int 3)]],
            closes := false } })
        { cancelAt := some 0, pick := fun n => decide (n = 1) } "q"
        (fun _ (u : Unit) => { err := none, st := u, calls := [] }) ()).trace =
      List.take j [[("n", Value.int 1)], [("n", Value.int 2)], [("n", Value.int 3)]] :=
  have h := C6_no_calls_after_done_branch
    { Watch := fun _ =>
        { rows := [[("n", Value.int 1)], [("n", Value.int 2)], [("n", Value.int 3)]],
          closes := false } }
    { cancelAt := some 0, pick := fun n => decide (n = 1) } "q"
    (fun _ (u : Unit) => { err := none, st := u, calls := [] }) () 1 (by decide) (by decide)
  ⟨h.1, h.2.2.2⟩

/-- C7: WatchQueueWithCB returns a non-nil error if and only if acquiring the
journal fails. It then returns that same error and has done nothing else: no
journal.Watch, no wait-group increment, no goroutine, no processor invocation,
the state untouched. When the journal is acquired it returns nil whatever the
processor returns. -/
theorem C7_only_setup_errors_returned {σ : Type} (getJournal : Except Error JournalService)
    (s : Sched) (artifact : String) (processor : Processor σ) (st : σ) :
    ((WatchQueueWithCB getJournal s artifact processor st).ret ≠ none ↔
      ∃ err, getJournal = Except.error err) ∧
    (∀ err : Error,
      (WatchQueueWithCB (Except.error err) s artifact processor st).ret = some err ∧
      (WatchQueueWithCB (Except.error err) s artifact processor st).trace = [Event.getJournal] ∧
      (WatchQueueWithCB (Except.error err) s artifact processor st).st = st ∧
      processorCalls (WatchQueueWithCB (Except.error err) s artifact processor st).trace = []) ∧
    (∀ journal : JournalService,
      (WatchQueueWithCB (Except.ok journal) s artifact processor st).ret = none) := by
  refine ⟨?_, ?_, ?_⟩
  · cases getJournal with
    | error err => simp [WatchQueueWithCB]
    | ok journal => simp [WatchQueueWithCB]
  · intro err
    simp [WatchQueueWithCB, processorCalls]
  · intro journal
    simp [WatchQueueWithCB]

end Journal

/-! ## Theorems: the auditd pipeline -/

namespace Syslog

/-- C8: for every completed group handed to ReassemblyComplete, the handler
sends exactly one event, the coalescer's result, on the output channel when
coalescing succeeds, and sends nothing and logs nothing when it fails. -/
theorem C8_one_event_or_silence
    (coalesce : List AuditMessage → Except Error CoalescedEvent) (msgs : List AuditMessage) :
    (∀ event, coalesce msgs = Except.ok event →
      streamHandler.ReassemblyComplete coalesce msgs = [Action.send event]) ∧
    (∀ err, coalesce msgs = Except.error err →
      streamHandler.ReassemblyComplete coalesce msgs = []) := by
  constructor
  · intro event h
    simp [streamHandler.ReassemblyComplete, streamHandler.outputMultipleMessages, h]
  · intro err h
    simp [streamHandler.ReassemblyComplete, streamHandler.outputMultipleMessages, h]

theorem pushes_append (a b : List PEvent) : pushes (a ++ b) = pushes a ++ pushes b := by
  induction a with
  | nil => rfl
  | cons e a ih => cases e <;> simp [pushes, ih]

theorem lifecycleInv_init (env : Env) : lifecycleInv env PState.init := by
  simp [lifecycleInv, TickerExitJustified, PState.init]

theorem lifecycleInv_step (name : String) (env : Env) (st : Step) (s s2 : PState)
    (hinv : lifecycleInv env s) (hstep : callStep name env st s = some s2) :
    lifecycleInv env s2 := by
  obtain ⟨pc, panicking, ticker, ctxDone, reasm, outputClosed, mainSends, tickerSends, trace⟩ := s
  unfold callStep at hstep
  by_cases hcr : pc = MainPc.crashed
  · simp [hcr] at hstep
  · simp only [hcr, if_false] at hstep
    obtain ⟨ht, hpc⟩ := hinv
    cases st with
    | cancel =>
      simp at hstep
      subst hstep
      refine ⟨?_, ?_⟩
      · intro _; exact Or.inl rfl
      · cases pc <;> simp [lifecycleInv, ReasmReleased] at hpc ⊢ <;> simp_all
    | tick fails completed =>
      by_cases hrun : ticker = TickerSt.running ∧ tickerSends = []
      · by_cases hf : fails = true ∨ reasm = ReasmSt.closed
        · simp [hrun, hf] at hstep
          subst hstep
          obtain ⟨hr, _⟩ := hrun
          subst hr
          refine ⟨?_, ?_⟩
          · intro _; exact Or.inr (by simp)
          · cases pc <;> simp [lifecycleInv, ReasmReleased] at hpc ⊢ <;> simp_all
        · simp [hrun, hf] at hstep
          subst hstep
          obtain ⟨hr, _⟩ := hrun
          subst hr
          refine ⟨?_, ?_⟩
          · intro h; simp at h
          · cases pc <;> simp [lifecycleInv, ReasmReleased] at hpc ⊢ <;> simp_all
      · simp [hrun] at hstep
    | tickerDone =>
      by_cases hrun : ticker = TickerSt.running ∧ tickerSends = [] ∧ ctxDone = true
      · simp [hrun] at hstep
        subst hstep
        obtain ⟨hr, _, hc⟩ := hrun
        subst hr
        refine ⟨?_, ?_⟩
        · intro _; exact Or.inl (by simp [hc])
        · cases pc <;> simp [lifecycleInv, ReasmReleased] at hpc ⊢ <;> simp_all
      · simp [hrun] at hstep
    | recv fromTicker =>
      cases fromTicker with
      | true =>
        cases tickerSends with
        | nil => simp at hstep
        | cons event rest =>
          simp at hstep
          subst hstep
          refine ⟨?_, ?_⟩
          · intro h
            rcases ht h with h1 | h1
            · exact Or.inl h1
            · exact Or.inr (by simp at h1 ⊢; exact h1)
          · cases pc <;> simp [lifecycleInv, ReasmReleased] at hpc ⊢ <;> simp_all
      | false =>
        cases mainSends with
        | nil => simp at hstep
        | cons event rest =>
          simp at hstep
          subst hstep
          refine ⟨?_, ?_⟩
          · intro h
            rcases ht h with h1 | h1
            · exact Or.inl h1
            · exact Or.inr (by simp at h1 ⊢; exact h1)
          · cases pc <;> simp [lifecycleInv, ReasmReleased] at hpc ⊢ <;> simp_all
    | main =>
      by_cases hm : mainSends = []
      · simp only [hm, if_true, mainStep] at hstep
        cases pc with
        | start =>
          cases hnr : env.NewReassembler with
          | error err =>
            simp [hnr] at hstep
            subst hstep
            simp [lifecycleInv, TickerExitJustified, ReasmReleased, hnr] at hpc ⊢
            simp_all
          | ok u =>
            simp [hnr] at hstep
            subst hstep
            simp [lifecycleInv, TickerExitJustified, ReasmReleased, hnr] at hpc ⊢
            simp_all
        | scanning rows =>
          cases rows with
          | nil =>
            simp at hstep
            subst hstep
            simp [lifecycleInv, TickerExitJustified] at ht hpc ⊢
            exact ⟨ht, hpc⟩
          | cons row rest =>
            cases hline : Dict.Get row "Line" with
            | none =>
              simp [hline] at hstep
              subst hstep
              simp [lifecycleInv, TickerExitJustified] at ht hpc ⊢
              exact ⟨ht, hpc⟩
            | some v =>
              cases v with
              | str line =>
                cases hparse : env.ParseLogLine line with
                | error err =>
                  simp [hline, hparse] at hstep
                  subst hstep
                  simp [lifecycleInv, TickerExitJustified] at ht hpc ⊢
                  exact ⟨ht, hpc⟩
                | ok msg =>
                  simp [hline, hparse] at hstep
                  subst hstep
                  simp [lifecycleInv, TickerExitJustified] at ht hpc ⊢
                  exact ⟨ht, hpc⟩
              | bytes b =>
                simp [hline] at hstep
                subst hstep
                simp [lifecycleInv, TickerExitJustified] at ht hpc ⊢
                exact ⟨ht, hpc⟩
              | strptr p =>
                simp [hline] at hstep
                subst hstep
                simp [lifecycleInv, TickerExitJustified] at ht hpc ⊢
                exact ⟨ht, hpc⟩
              | int n =>
                simp [hline] at hstep
                subst hstep
                simp [lifecycleInv, TickerExitJustified] at ht hpc ⊢
                exact ⟨ht, hpc⟩
              | bool b =>
                simp [hline] at hstep
                subst hstep
                simp [lifecycleInv, TickerExitJustified] at ht hpc ⊢
                exact ⟨ht, hpc⟩
              | other tag =>
                simp [hline] at hstep
                subst hstep
                simp [lifecycleInv, TickerExitJustified] at ht hpc ⊢
                exact ⟨ht, hpc⟩
        | deferClose =>
          simp at hstep
          subst hstep
          simp [lifecycleInv, TickerExitJustified, ReasmReleased] at ht hpc ⊢
          exact ⟨ht, hpc.2⟩
        | deferCloseOutput =>
          simp at hstep
          subst hstep
          refine ⟨?_, ?_⟩
          · simp [TickerExitJustified] at ht ⊢
            exact ht
          · by_cases hc : panicking = true ∨ ¬ tickerSends = []
            · simp [lifecycleInv, ReasmReleased, hc] at hpc ⊢
              exact hpc.2
            · simp [lifecycleInv, ReasmReleased, hc] at hpc ⊢
              exact hpc.2
        | finished => simp at hstep
        | crashed => simp at hstep
      · simp [hm] at hstep

theorem released_of_outputClosed (env : Env) (s : PState) (hinv : lifecycleInv env s)
    (hclosed : s.outputClosed = true) : ReasmReleased env s ∧ TickerExitJustified s := by
  obtain ⟨ht, hpc⟩ := hinv
  refine ⟨?_, ht⟩
  cases hp : s.pc with
  | start => simp [hp, hclosed] at hpc
  | scanning rows => simp [hp, hclosed] at hpc
  | deferClose => simp [hp, hclosed] at hpc
  | deferCloseOutput => simp [hp, hclosed] at hpc
  | finished => simpa [hp] using hpc
  | crashed => simpa [hp] using hpc

theorem maintainCalls_append (a b : List PEvent) :
    maintainCalls (a ++ b) = maintainCalls a + maintainCalls b := by
  induction a with
  | nil => simp [maintainCalls]
  | cons e a ih =>
    cases e <;> simp [maintainCalls, ih]
    omega

theorem not_mem_of_maintainCalls_zero (u : List PEvent) (h : maintainCalls u = 0) (b : Bool) :
    PEvent.maintain b ∉ u := by
  induction u with
  | nil => simp
  | cons e u ih =>
    cases e <;> simp [maintainCalls] at h ⊢ <;> exact ih h

theorem afterClose_of_not_mem (t : List PEvent) (h : PEvent.reassemblerClose ∉ t) :
    afterClose t = [] := by
  induction t with
  | nil => rfl
  | cons e t ih =>
    cases e <;> simp [afterClose] at h ⊢ <;> exact ih h

theorem afterClose_append_of_not_mem (t u : List PEvent) (h : PEvent.reassemblerClose ∉ t) :
    afterClose (t ++ u) = afterClose u := by
  induction t with
  | nil => rfl
  | cons e t ih =>
    cases e <;> simp [afterClose] at h ⊢ <;> exact ih h

theorem afterClose_append_of_mem (t u : List PEvent) (h : PEvent.reassemblerClose ∈ t) :
    afterClose (t ++ u) = afterClose t ++ u := by
  induction t with
  | nil => simp at h
  | cons e t ih =>
    cases e <;> simp [afterClose] at h ⊢ <;> exact ih h

theorem maintainInv_init : maintainInv PState.init := by
  simp [maintainInv, AtMostOneMaintainAfterClose, PState.init, afterClose, maintainCalls]

theorem maintainInv_quiet (s s2 : PState) (u : List PEvent) (h : maintainInv s)
    (hr : s2.reasm = s.reasm) (ht : s2.ticker = s.ticker ∨ s2.ticker = TickerSt.exited)
    (htr : s2.trace = s.trace ++ u) (hu : maintainCalls u = 0)
    (hrc : PEvent.reassemblerClose ∉ u) : maintainInv s2 := by
  obtain ⟨hiff, hle, hno, hex⟩ := h
  by_cases hmem : PEvent.reassemblerClose ∈ s.trace
  · have hac : afterClose s2.trace = afterClose s.trace ++ u := by
      rw [htr]; exact afterClose_append_of_mem _ _ hmem
    refine ⟨?_, ?_, ?_, ?_⟩
    · rw [hr, htr, hiff]; simp [hmem]
    · rw [hac, maintainCalls_append, hu]; exact hle
    · rw [hac]
      intro hm
      rcases List.mem_append.1 hm with h1 | h1
      · exact hno h1
      · exact not_mem_of_maintainCalls_zero u hu false h1
    · rw [hac, maintainCalls_append, hu]
      intro h1
      rcases ht with h2 | h2
      · rw [h2]; exact hex h1
      · exact h2
  · have hac : afterClose s2.trace = [] := by
      rw [htr, afterClose_append_of_not_mem _ _ hmem]; exact afterClose_of_not_mem _ hrc
    refine ⟨?_, ?_, ?_, ?_⟩
    · rw [hr, htr, hiff]; simp [hmem, hrc]
    · rw [hac]; simp [maintainCalls]
    · rw [hac]; simp
    · rw [hac]; simp [maintainCalls]

theorem maintainInv_create (s s2 : PState) (u : List PEvent) (h : maintainInv s)
    (hs : s.reasm = ReasmSt.absent) (hr : s2.reasm = ReasmSt.live)
    (htr : s2.trace = s.trace ++ u) (hrc : PEvent.reassemblerClose ∉ u) : maintainInv s2 := by
  obtain ⟨hiff, _, _, _⟩ := h
  have hmem : PEvent.reassemblerClose ∉ s.trace := by
    intro hm
    have := hiff.2 hm
    rw [hs] at this
    exact absurd this (by decide)
  have hac : afterClose s2.trace = [] := by
    rw [htr, afterClose_append_of_not_mem _ _ hmem]; exact afterClose_of_not_mem _ hrc
  refine ⟨?_, ?_, ?_, ?_⟩
  · rw [hr, htr]; simp [hmem, hrc]
  · rw [hac]; simp [maintainCalls]
  · rw [hac]; simp
  · rw [hac]; simp [maintainCalls]

theorem maintainInv_close (s s2 : PState) (h : maintainInv s)
    (hr : s2.reasm = ReasmSt.closed) (ht : s2.ticker = s.ticker)
    (htr : s2.trace = s.trace ++ [PEvent.reassemblerClose]) : maintainInv s2 := by
  obtain ⟨hiff, hle, hno, hex⟩ := h
  by_cases hmem : PEvent.reassemblerClose ∈ s.trace
  · have hac : afterClose s2.trace = afterClose s.trace ++ [PEvent.reassemblerClose] := by
      rw [htr]; exact afterClose_append_of_mem _ _ hmem
    refine ⟨?_, ?_, ?_, ?_⟩
    · rw [hr, htr]; simp
    · rw [hac, maintainCalls_append]; simpa [maintainCalls] using hle
    · rw [hac]; simpa using hno
    · rw [hac, maintainCalls_append, ht]; simpa [maintainCalls] using hex
  · have hac : afterClose s2.trace = [] := by
      rw [htr, afterClose_append_of_not_mem _ _ hmem]; rfl
    refine ⟨?_, ?_, ?_, ?_⟩
    · rw [hr, htr]; simp
    · rw [hac]; simp [maintainCalls]
    · rw [hac]; simp
    · rw [hac]; simp [maintainCalls]

theorem maintainInv_fail (s s2 : PState) (h : maintainInv s)
    (hrun : s.ticker = TickerSt.running)
    (hr : s2.reasm = s.reasm) (ht : s2.ticker = TickerSt.exited)
    (htr : s2.trace = s.trace ++ [PEvent.maintain true, PEvent.tickerExit]) :
    maintainInv s2 := by
  obtain ⟨hiff, hle, hno, hex⟩ := h
  by_cases hmem : PEvent.reassemblerClose ∈ s.trace
  · have hac : afterClose s2.trace =
        afterClose s.trace ++ [PEvent.maintain true, PEvent.tickerExit] := by
      rw [htr]; exact afterClose_append_of_mem _ _ hmem
    have hzero : maintainCalls (afterClose s.trace) = 0 := by
      have hne : maintainCalls (afterClose s.trace) ≠ 1 := by
        intro h1
        have := hex h1
        rw [hrun] at this
        exact absurd this (by decide)
      omega
    refine ⟨?_, ?_, ?_, ?_⟩
    · rw [hr, htr, hiff]; simp [hmem]
    · rw [hac, maintainCalls_append, hzero]; simp [maintainCalls]
    · rw [hac]; simpa using hno
    · intro _; exact ht
  · have hac : afterClose s2.trace = [] := by
      rw [htr, afterClose_append_of_not_mem _ _ hmem]; rfl
    refine ⟨?_, ?_, ?_, ?_⟩
    · rw [hr, htr, hiff]; simp [hmem]
    · rw [hac]; simp [maintainCalls]
    · rw [hac]; simp
    · rw [hac]; simp [maintainCalls]

theorem maintainInv_ok (s s2 : PState) (h : maintainInv s)
    (hopen : s.reasm ≠ ReasmSt.closed) (hr : s2.reasm = s.reasm)
    (htr : s2.trace = s.trace ++ [PEvent.maintain false]) : maintainInv s2 := by
  obtain ⟨hiff, _, _, _⟩ := h
  have hmem : PEvent.reassemblerClose ∉ s.trace := fun hm => hopen (hiff.2 hm)
  have hac : afterClose s2.trace = [] := by
    rw [htr, afterClose_append_of_not_mem _ _ hmem]; rfl
  refine ⟨?_, ?_, ?_, ?_⟩
  · rw [hr, htr, hiff]; simp [hmem]
  · rw [hac]; simp [maintainCalls]
  · rw [hac]; simp
  · rw [hac]; simp [maintainCalls]

theorem maintainInv_step (name : String) (env : Env) (st : Step) (s s2 : PState)
    (hlife : lifecycleInv env s) (hinv : maintainInv s)
    (hstep : callStep name env st s = some s2) : maintainInv s2 := by
  unfold callStep at hstep
  by_cases hcr : s.pc = MainPc.crashed
  · simp [hcr] at hstep
  · simp only [hcr, if_false] at hstep
    cases st with
    | cancel =>
      simp at hstep
      subst hstep
      exact maintainInv_quiet s _ [PEvent.ctxCancel] hinv rfl (Or.inl rfl) rfl rfl (by simp)
    | tick fails completed =>
      by_cases hrun : s.ticker = TickerSt.running ∧ s.tickerSends = []
      · by_cases hf : fails = true ∨ s.reasm = ReasmSt.closed
        · simp [hrun, hf] at hstep
          subst hstep
          exact maintainInv_fail s _ hinv hrun.1 rfl rfl rfl
        · simp [hrun, hf] at hstep
          subst hstep
          exact maintainInv_ok s _ hinv (fun h => hf (Or.inr h)) rfl rfl
      · simp [hrun] at hstep
    | tickerDone =>
      by_cases hrun : s.ticker = TickerSt.running ∧ s.tickerSends = [] ∧ s.ctxDone = true
      · simp [hrun] at hstep
        subst hstep
        exact maintainInv_quiet s _ [PEvent.tickerExit] hinv rfl (Or.inr rfl) rfl rfl (by simp)
      · simp [hrun] at hstep
    | recv fromTicker =>
      cases fromTicker with
      | true =>
        cases hts : s.tickerSends with
        | nil => simp [hts] at hstep
        | cons event rest =>
          simp [hts] at hstep
          subst hstep
          exact maintainInv_quiet s _ [PEvent.received event] hinv rfl (Or.inl rfl) rfl rfl
            (by simp)
      | false =>
        cases hms : s.mainSends with
        | nil => simp [hms] at hstep
        | cons event rest =>
          simp [hms] at hstep
          subst hstep
          exact maintainInv_quiet s _ [PEvent.received event] hinv rfl (Or.inl rfl) rfl rfl
            (by simp)
    | main =>
      by_cases hm : s.mainSends = []
      · simp only [hm, if_true, mainStep] at hstep
        cases hpc : s.pc with
        | start =>
          have hab : s.reasm = ReasmSt.absent := by
            have h2 := hlife.2
            simp [hpc] at h2
            exact h2.1
          cases hnr : env.NewReassembler with
          | error err =>
            simp [hpc, hnr] at hstep
            subst hstep
            exact maintainInv_quiet s _ _ hinv rfl (Or.inl rfl) rfl (by simp [maintainCalls])
              (by simp)
          | ok u =>
            simp [hpc, hnr] at hstep
            subst hstep
            exact maintainInv_create s _ _ hinv hab rfl rfl (by simp)
        | scanning rows =>
          cases rows with
          | nil =>
            simp [hpc] at hstep
            subst hstep
            exact maintainInv_quiet s _ [] hinv rfl (Or.inl rfl) (by simp) rfl (by simp)
          | cons row rest =>
            cases hline : Dict.Get row "Line" with
            | none =>
              simp [hpc, hline] at hstep
              subst hstep
              exact maintainInv_quiet s _ [] hinv rfl (Or.inl rfl) (by simp) rfl (by simp)
            | some v =>
              cases v with
              | str line =>
                cases hparse : env.ParseLogLine line with
                | error err =>
                  simp [hpc, hline, hparse] at hstep
                  subst hstep
                  exact maintainInv_quiet s _ [] hinv rfl (Or.inl rfl) (by simp) rfl (by simp)
                | ok msg =>
                  simp [hpc, hline, hparse] at hstep
                  subst hstep
                  exact maintainInv_quiet s _ [PEvent.push msg] hinv rfl (Or.inl rfl) rfl rfl
                    (by simp)
              | bytes b =>
                simp [hpc, hline] at hstep
                subst hstep
                exact maintainInv_quiet s _ [PEvent.panic] hinv rfl (Or.inl rfl) rfl rfl (by simp)
              | strptr q =>
                simp [hpc, hline] at hstep
                subst hstep
                exact maintainInv_quiet s _ [PEvent.panic] hinv rfl (Or.inl rfl) rfl rfl (by simp)
              | int n =>
                simp [hpc, hline] at hstep
                subst hstep
                exact maintainInv_quiet s _ [PEvent.panic] hinv rfl (Or.inl rfl) rfl rfl (by simp)
              | bool b =>
                simp [hpc, hline] at hstep
                subst hstep
                exact maintainInv_quiet s _ [PEvent.panic] hinv rfl (Or.inl rfl) rfl rfl (by simp)
              | other tag =>
                simp [hpc, hline] at hstep
                subst hstep
                exact maintainInv_quiet s _ [PEvent.panic] hinv rfl (Or.inl rfl) rfl rfl (by simp)
        | deferClose =>
          simp [hpc] at hstep
          subst hstep
          exact maintainInv_close s _ hinv rfl rfl rfl
        | deferCloseOutput =>
          simp [hpc] at hstep
          subst hstep
          exact maintainInv_quiet s _ [PEvent.closeOutput] hinv rfl (Or.inl rfl) rfl rfl (by simp)
        | finished => simp [hpc] at hstep
        | crashed => simp [hpc] at hstep
      · simp [hm] at hstep

theorem invariants_run (name : String) (env : Env) (steps : List Step) :
    ∀ (s s2 : PState), lifecycleInv env s → maintainInv s →
      callRun name env steps s = some s2 → lifecycleInv env s2 ∧ maintainInv s2 := by
  induction steps with
  | nil =>
    intro s s2 hl hm hrun
    simp [callRun] at hrun
    subst hrun
    exact ⟨hl, hm⟩
  | cons st rest ih =>
    intro s s2 hl hm hrun
    unfold callRun at hrun
    cases hstep : callStep name env st s with
    | none => simp [hstep] at hrun
    | some s1 =>
      simp [hstep] at hrun
      exact ih s1 s2 (lifecycleInv_step name env st s s1 hl hstep)
        (maintainInv_step name env st s s1 hl hm hstep) hrun

/-- C9 (as stated, refuted): the line source is exhausted at once and the
context is never cancelled. In both plugins the main goroutine closes the
Reassembler and then the output channel while the maintenance goroutine is still
running; at its next tick that goroutine makes a further Maintain call, which
fails on the closed Reassembler, and only then exits. -/
theorem C9_counterexample :
    (AuditdPlugin.Call
        { NewReassembler := Except.ok (), ParseLogLine := fun _ => Except.error "bad",
          CoalesceMessages := fun _ => Except.error "none", rows := [],
          completedOnPush := fun _ _ => [], completedOnClose := fun _ => [] }
        [Step.main, Step.main, Step.main, Step.main]).map
      (fun s => (s.outputClosed, s.reasm, s.ticker, s.ctxDone)) =
      some (true, ReasmSt.closed, TickerSt.running, false) ∧
    (AuditdPlugin.Call
        { NewReassembler := Except.ok (), ParseLogLine := fun _ => Except.error "bad",
          CoalesceMessages := fun _ => Except.error "none", rows := [],
          completedOnPush := fun _ _ => [], completedOnClose := fun _ => [] }
        [Step.main, Step.main, Step.main, Step.main, Step.tick false []]).map
      (fun s => s.trace) =
      some [PEvent.newReassembler true, PEvent.spawnTicker, PEvent.reassemblerClose,
        PEvent.closeOutput, PEvent.maintain true, PEvent.tickerExit] ∧
    (WatchAuditdPlugin.Call
        { NewReassembler := Except.ok (), ParseLogLine := fun _ => Except.error "bad",
          CoalesceMessages := fun _ => Except.error "none", rows := [],
          completedOnPush := fun _ _ => [], completedOnClose := fun _ => [] }
        [Step.main, Step.main, Step.main, Step.main]).map
      (fun s => (s.outputClosed, s.reasm, s.ticker, s.ctxDone)) =
      some (true, ReasmSt.closed, TickerSt.running, false) ∧
    (WatchAuditdPlugin.Call
        { NewReassembler := Except.ok (), ParseLogLine := fun _ => Except.error "bad",
          CoalesceMessages := fun _ => Except.error "none", rows := [],
          completedOnPush := fun _ _ => [], completedOnClose := fun _ => [] }
        [Step.main, Step.main, Step.main, Step.main, Step.tick false []]).map
      (fun s => s.trace) =
      some [PEvent.newReassembler true, PEvent.spawnTicker, PEvent.reassemblerClose,
        PEvent.closeOutput, PEvent.maintain true, PEvent.tickerExit] := by
  decide

/-- C9 (amended): in both AuditdPlugin.Call and WatchAuditdPlugin.Call, in every
execution, once the output channel is closed the Reassembler, when it was
created, has already been closed (when its creation failed there is neither a
Reassembler nor a maintenance goroutine). The maintenance goroutine is not
waited for: it has exited only if the context is cancelled or a Maintain call
has failed, and after the Reassembler is closed it makes at most one further
Maintain call, which fails and on which it exits. -/
theorem C9_reassembler_closed_before_output (env : Env) (steps : List Step) (s : PState)
    (hrun : AuditdPlugin.Call env steps = some s ∨ WatchAuditdPlugin.Call env steps = some s)
    (hclosed : s.outputClosed = true) :
    ReasmReleased env s ∧ TickerExitJustified s ∧ AtMostOneMaintainAfterClose s := by
  rcases hrun with h | h
  · have hinv := invariants_run "parse_auditd" env steps PState.init s (lifecycleInv_init env)
      maintainInv_init h
    have hrel := released_of_outputClosed env s hinv.1 hclosed
    exact ⟨hrel.1, hrel.2, hinv.2.2⟩
  · have hinv := invariants_run "watch_auditd" env steps PState.init s (lifecycleInv_init env)
      maintainInv_init h
    have hrel := released_of_outputClosed env s hinv.1 hclosed
    exact ⟨hrel.1, hrel.2, hinv.2.2⟩

theorem C9_reassembler_closed_before_output_witness :
    ∃ s, AuditdPlugin.Call sampleEnv
        [Step.main, Step.main, Step.main, Step.main, Step.main, Step.recv false, Step.main,
          Step.main, Step.main, Step.tick false []] = some s ∧
      s.outputClosed = true ∧ s.ticker = TickerSt.exited ∧ s.ctxDone = false ∧
      ReasmReleased sampleEnv s ∧ TickerExitJustified s ∧ AtMostOneMaintainAfterClose s := by
  have h : (AuditdPlugin.Call sampleEnv
        [Step.main, Step.main, Step.main, Step.main, Step.main, Step.recv false, Step.main,
          Step.main, Step.main, Step.tick false []]).map
      (fun s => (s.outputClosed, s.ticker, s.ctxDone)) =
      some (true, TickerSt.exited, false) := by decide
  obtain ⟨s, hs, hval⟩ := Option.map_eq_some'.1 h
  have hc : s.outputClosed = true := congrArg (fun x => x.1) hval
  have ht : s.ticker = TickerSt.exited := congrArg (fun x => x.2.1) hval
  have hd : s.ctxDone = false := congrArg (fun x => x.2.2) hval
  exact ⟨s, hs, hc, ht, hd, C9_reassembler_closed_before_output sampleEnv _ s (Or.inl hs) hc⟩

theorem LinesAreStrings_tail (row : Dict) (rest : List Dict)
    (h : LinesAreStrings (row :: rest)) : LinesAreStrings rest :=
  fun r hr v hv => h r (List.mem_cons_of_mem row hr) v hv

theorem parsedLines_append (parse : String → Except Error AuditMessage) (a b : List Dict) :
    parsedLines parse (a ++ b) = parsedLines parse a ++ parsedLines parse b := by
  simp [parsedLines, List.filterMap_append]

theorem pushInv_init (env : Env) : pushInv env PState.init := by
  simp [pushInv, PState.init, pushes]

theorem pushInv_step (name : String) (env : Env) (st : Step) (s s2 : PState)
    (hok : env.NewReassembler = Except.ok ()) (hstr : LinesAreStrings env.rows)
    (hinv : pushInv env s) (hstep : callStep name env st s = some s2) :
    pushInv env s2 := by
  obtain ⟨pc, panicking, ticker, ctxDone, reasm, outputClosed, mainSends, tickerSends, trace⟩ := s
  unfold callStep at hstep
  by_cases hcr : pc = MainPc.crashed
  · simp [hcr] at hstep
  · simp only [hcr, if_false] at hstep
    cases st with
    | cancel =>
      simp at hstep
      subst hstep
      cases pc <;> simp [pushInv, pushes_append, pushes] at hinv ⊢ <;> exact hinv
    | tick fails completed =>
      by_cases hrun : ticker = TickerSt.running ∧ tickerSends = []
      · by_cases hf : fails = true ∨ reasm = ReasmSt.closed
        · simp [hrun, hf] at hstep
          subst hstep
          cases pc <;> simp [pushInv, pushes_append, pushes] at hinv ⊢ <;> exact hinv
        · simp [hrun, hf] at hstep
          subst hstep
          cases pc <;> simp [pushInv, pushes_append, pushes] at hinv ⊢ <;> exact hinv
      · simp [hrun] at hstep
    | tickerDone =>
      by_cases hrun : ticker = TickerSt.running ∧ tickerSends = [] ∧ ctxDone = true
      · simp [hrun] at hstep
        subst hstep
        cases pc <;> simp [pushInv, pushes_append, pushes] at hinv ⊢ <;> exact hinv
      · simp [hrun] at hstep
    | recv fromTicker =>
      cases fromTicker with
      | true =>
        cases tickerSends with
        | nil => simp at hstep
        | cons event rest =>
          simp at hstep
          subst hstep
          cases pc <;> simp [pushInv, pushes_append, pushes] at hinv ⊢ <;> exact hinv
      | false =>
        cases mainSends with
        | nil => simp at hstep
        | cons event rest =>
          simp at hstep
          subst hstep
          cases pc <;> simp [pushInv, pushes_append, pushes] at hinv ⊢ <;> exact hinv
    | main =>
      by_cases hm : mainSends = []
      · simp only [hm, if_true, mainStep] at hstep
        cases pc with
        | start =>
          simp [hok] at hstep
          subst hstep
          simp only [pushInv] at hinv ⊢
          refine ⟨⟨[], by simp, ?_⟩, hstr⟩
          simp [pushes_append, pushes, hinv, parsedLines]
        | scanning rows =>
          simp only [pushInv] at hinv
          obtain ⟨⟨consumed, hrows, hpushed⟩, hty⟩ := hinv
          cases rows with
          | nil =>
            simp at hstep
            subst hstep
            simp only [pushInv]
            rw [hpushed, hrows]
            simp
          | cons row rest =>
            have hrest := LinesAreStrings_tail row rest hty
            have hrows2 : env.rows = (consumed ++ [row]) ++ rest := by simp [hrows]
            cases hline : Dict.Get row "Line" with
            | none =>
              simp [hline] at hstep
              subst hstep
              simp only [pushInv]
              refine ⟨⟨consumed ++ [row], hrows2, ?_⟩, hrest⟩
              rw [parsedLines_append, hpushed]
              simp [parsedLines, hline]
            | some v =>
              obtain ⟨line, hv⟩ := hty row (List.mem_cons_self row rest) v hline
              subst hv
              cases hparse : env.ParseLogLine line with
              | error err =>
                simp [hline, hparse] at hstep
                subst hstep
                simp only [pushInv]
                refine ⟨⟨consumed ++ [row], hrows2, ?_⟩, hrest⟩
                rw [parsedLines_append, hpushed]
                simp [parsedLines, hline, hparse]
              | ok msg =>
                simp [hline, hparse] at hstep
                subst hstep
                simp only [pushInv]
                refine ⟨⟨consumed ++ [row], hrows2, ?_⟩, hrest⟩
                rw [parsedLines_append, pushes_append, hpushed]
                simp [parsedLines, hline, hparse, pushes]
        | deferClose =>
          simp at hstep
          subst hstep
          simp [pushInv, pushes_append, pushes] at hinv ⊢
          exact hinv
        | deferCloseOutput =>
          simp at hstep
          subst hstep
          by_cases hc : panicking = true ∨ ¬ tickerSends = []
          · simp [pushInv, pushes_append, pushes, hc] at hinv ⊢
            exact hinv
          · simp [pushInv, pushes_append, pushes, hc] at hinv ⊢
            exact hinv
        | finished => simp at hstep
        | crashed => simp at hstep
      · simp [hm] at hstep

theorem pushInv_run (name : String) (env : Env) (hok : env.NewReassembler = Except.ok ())
    (hstr : LinesAreStrings env.rows) (steps : List Step) :
    ∀ (s s2 : PState), pushInv env s → callRun name env steps s = some s2 → pushInv env s2 := by
  induction steps with
  | nil =>
    intro s s2 hinv hrun
    simp [callRun] at hrun
    subst hrun
    exact hinv
  | cons st rest ih =>
    intro s s2 hinv hrun
    unfold callRun at hrun
    cases hstep : callStep name env st s with
    | none => simp [hstep] at hrun
    | some s1 =>
      simp [hstep] at hrun
      exact ih s1 s2 (pushInv_step name env st s s1 hok hstr hinv hstep) hrun

theorem pushed_are_parses_of_consumed (env : Env) (s : PState) (hinv : pushInv env s) :
    ∃ consumed rest, env.rows = consumed ++ rest ∧
      pushes s.trace = parsedLines env.ParseLogLine consumed ∧
      (s.pc = MainPc.finished → rest = []) := by
  cases hp : s.pc with
  | start =>
    simp [pushInv, hp] at hinv
    exact ⟨[], env.rows, by simp, by simp [hinv, parsedLines], by simp⟩
  | scanning rem =>
    simp [pushInv, hp] at hinv
    obtain ⟨⟨consumed, hrows, hpushed⟩, _⟩ := hinv
    exact ⟨consumed, rem, hrows, hpushed, by simp⟩
  | deferClose =>
    simp [pushInv, hp] at hinv
    exact ⟨env.rows, [], by simp, hinv, by simp⟩
  | deferCloseOutput =>
    simp [pushInv, hp] at hinv
    exact ⟨env.rows, [], by simp, hinv, by simp⟩
  | finished =>
    simp [pushInv, hp] at hinv
    exact ⟨env.rows, [], by simp, hinv, by simp⟩
  | crashed =>
    simp [pushInv, hp] at hinv
    exact ⟨env.rows, [], by simp, hinv, by simp⟩

theorem callRun_append (name : String) (env : Env) (a b : List Step) :
    ∀ (s : PState), callRun name env (a ++ b) s =
      (callRun name env a s).bind (callRun name env b) := by
  induction a with
  | nil => intro s; simp [callRun]
  | cons st a ih =>
    intro s
    simp only [List.cons_append, callRun]
    cases callStep name env st s with
    | none => simp
    | some s1 => simp [ih]

theorem drain_main (name : String) (env : Env) :
    ∀ (sends : List CoalescedEvent) (s : PState), s.mainSends = sends →
      s.pc ≠ MainPc.crashed →
      ∃ s2, callRun name env (List.replicate sends.length (Step.recv false)) s = some s2 ∧
        s2.pc = s.pc ∧ s2.panicking = s.panicking ∧ s2.mainSends = [] ∧
        s2.tickerSends = s.tickerSends ∧ pushes s2.trace = pushes s.trace := by
  intro sends
  induction sends with
  | nil =>
    intro s hs _
    exact ⟨s, by simp [callRun], rfl, rfl, hs, rfl, rfl⟩
  | cons event rest ih =>
    intro s hs hpc
    have hstep : callStep name env (Step.recv false) s =
        some { s with mainSends := rest, trace := s.trace ++ [PEvent.received event] } := by
      simp [callStep, hpc, hs]
    obtain ⟨s2, hrun, h1, h2, h3, h4, h5⟩ :=
      ih { s with mainSends := rest, trace := s.trace ++ [PEvent.received event] } rfl hpc
    refine ⟨s2, ?_, h1, h2, h3, h4, ?_⟩
    · simp only [List.length_cons, List.replicate_succ, callRun, hstep]
      exact hrun
    · rw [h5]
      simp [pushes_append, pushes]

theorem drainedScan_finishes (name : String) (env : Env) :
    ∀ (rem : List Dict) (pushed : List AuditMessage) (s : PState),
      s.pc = MainPc.scanning rem → s.panicking = false → s.mainSends = [] →
      s.tickerSends = [] → pushes s.trace = pushed → LinesAreStrings rem →
      ∃ s2, callRun name env (drainedScan env pushed rem) s = some s2 ∧
        s2.pc = MainPc.finished := by
  intro rem
  induction rem with
  | nil =>
    intro pushed s hpc hpan hms hts hpu _
    have h1 : callStep name env Step.main s = some { s with pc := MainPc.deferClose } := by
      simp [callStep, mainStep, hpc, hms]
    have h2 : callStep name env Step.main { s with pc := MainPc.deferClose } =
        some { s with pc := MainPc.deferCloseOutput, reasm := ReasmSt.closed,
                      mainSends := callbackSends env.CoalesceMessages
                        (env.completedOnClose pushed),
                      trace := s.trace ++ [PEvent.reassemblerClose] } := by
      simp [callStep, mainStep, hms, hpu]
    obtain ⟨s3, hrun3, hpc3, hpan3, hms3, hts3, _⟩ := drain_main name env
      (callbackSends env.CoalesceMessages (env.completedOnClose pushed))
      { s with pc := MainPc.deferCloseOutput, reasm := ReasmSt.closed,
               mainSends := callbackSends env.CoalesceMessages (env.completedOnClose pushed),
               trace := s.trace ++ [PEvent.reassemblerClose] } rfl (by simp)
    simp only at hpc3 hpan3 hts3
    have h4 : callStep name env Step.main s3 =
        some { s3 with pc := MainPc.finished, outputClosed := true,
                       trace := s3.trace ++ [PEvent.closeOutput] } := by
      simp [callStep, mainStep, hpc3, hms3, hpan3, hts3, hpan, hts]
    refine ⟨{ s3 with pc := MainPc.finished, outputClosed := true,
                      trace := s3.trace ++ [PEvent.closeOutput] }, ?_, rfl⟩
    simp only [drainedScan, callRun, h1, h2]
    rw [callRun_append, hrun3]
    simp [callRun, h4]
  | cons row rest ih =>
    intro pushed s hpc hpan hms hts hpu hty
    have hrest := LinesAreStrings_tail row rest hty
    cases hline : Dict.Get row "Line" with
    | none =>
      have h1 : callStep name env Step.main s = some { s with pc := MainPc.scanning rest } := by
        simp [callStep, mainStep, hpc, hms, hline]
      obtain ⟨s2, hrun, hfin⟩ := ih pushed { s with pc := MainPc.scanning rest } rfl hpan hms
        hts hpu hrest
      refine ⟨s2, ?_, hfin⟩
      simp only [drainedScan, hline, callRun, h1]
      exact hrun
    | some v =>
      obtain ⟨line, hv⟩ := hty row (List.mem_cons_self row rest) v hline
      subst hv
      cases hparse : env.ParseLogLine line with
      | error err =>
        have h1 : callStep name env Step.main s =
            some { s with pc := MainPc.scanning rest } := by
          simp [callStep, mainStep, hpc, hms, hline, hparse]
        obtain ⟨s2, hrun, hfin⟩ := ih pushed { s with pc := MainPc.scanning rest } rfl hpan hms
          hts hpu hrest
        refine ⟨s2, ?_, hfin⟩
        simp only [drainedScan, hline, hparse, callRun, h1]
        exact hrun
      | ok msg =>
        have h1 : callStep name env Step.main s =
            some { s with pc := MainPc.scanning rest,
                          mainSends := callbackSends env.CoalesceMessages
                            (env.completedOnPush pushed msg),
                          trace := s.trace ++ [PEvent.push msg] } := by
          simp [callStep, mainStep, hpc, hms, hline, hparse, hpu]
        obtain ⟨s3, hrun3, hpc3, hpan3, hms3, hts3, hpu3⟩ := drain_main name env
          (callbackSends env.CoalesceMessages (env.completedOnPush pushed msg))
          { s with pc := MainPc.scanning rest,
                   mainSends := callbackSends env.CoalesceMessages
                     (env.completedOnPush pushed msg),
                   trace := s.trace ++ [PEvent.push msg] } rfl (by simp)
        simp only at hpc3 hpan3 hts3 hpu3
        have hpu4 : pushes s3.trace = pushed ++ [msg] := by
          rw [hpu3, pushes_append, hpu]
          simp [pushes]
        obtain ⟨s2, hrun, hfin⟩ := ih (pushed ++ [msg]) s3 hpc3 (hpan3.trans hpan) hms3
          (hts3.trans hts) hpu4 hrest
        refine ⟨s2, ?_, hfin⟩
        simp only [drainedScan, hline, hparse, callRun, h1]
        rw [callRun_append, hrun3]
        exact hrun

theorem drainedSchedule_finishes (name : String) (env : Env)
    (hok : env.NewReassembler = Except.ok ()) (hstr : LinesAreStrings env.rows) :
    ∃ s2, callRun name env (drainedSchedule env) PState.init = some s2 ∧
      s2.pc = MainPc.finished := by
  have hstep : callStep name env Step.main PState.init =
      some { PState.init with pc := MainPc.scanning env.rows, reasm := ReasmSt.live,
                              ticker := TickerSt.running,
                              trace := [PEvent.newReassembler true, PEvent.spawnTicker] } := by
    simp [callStep, mainStep, PState.init, hok]
  obtain ⟨s2, hrun, hfin⟩ := drainedScan_finishes name env env.rows []
    { PState.init with pc := MainPc.scanning env.rows, reasm := ReasmSt.live,
                       ticker := TickerSt.running,
                       trace := [PEvent.newReassembler true, PEvent.spawnTicker] }
    rfl rfl rfl rfl rfl hstr
  refine ⟨s2, ?_, hfin⟩
  simp only [drainedSchedule, callRun, hstep]
  exact hrun

theorem drainedScan_steps (env : Env) :
    ∀ (rem : List Dict) (pushed : List AuditMessage),
      ∀ st ∈ drainedScan env pushed rem, st = Step.main ∨ st = Step.recv false := by
  intro rem
  induction rem with
  | nil =>
    intro pushed st hst
    simp only [drainedScan, List.mem_cons, List.mem_append, List.mem_replicate,
      List.mem_singleton] at hst
    rcases hst with h | h | h | h
    · exact Or.inl h
    · exact Or.inl h
    · exact Or.inr h.2
    · rcases h with h | h
      · exact Or.inl h
      · simp at h
  | cons row rest ih =>
    intro pushed st hst
    unfold drainedScan at hst
    split at hst
    · split at hst
      · simp only [List.mem_cons, List.mem_append, List.mem_replicate] at hst
        rcases hst with h | h | h
        · exact Or.inl h
        · exact Or.inr h.2
        · exact ih _ st h
      · rcases List.mem_cons.1 hst with h | h
        · exact Or.inl h
        · exact ih _ st h
    · rcases List.mem_cons.1 hst with h | h
      · exact Or.inl h
      · exact ih _ st h

theorem finished_pushes_all (env : Env) (s : PState) (hinv : pushInv env s)
    (hfin : s.pc = MainPc.finished) :
    pushes s.trace = parsedLines env.ParseLogLine env.rows := by
  simpa [pushInv, hfin] using hinv

/-- C10: in both AuditdPlugin.Call and WatchAuditdPlugin.Call, when the
Reassembler is created and every Line value of the finite row sequence is a
string: in every execution, at every moment, the messages pushed into the
Reassembler are exactly the successful parses of the Line values of the rows
consumed so far, in source order (rows without a Line field and lines that fail
to parse are dropped without stopping the later ones), and all rows are consumed
once the goroutine has finished. The goroutine does finish, having pushed the
successful parses of all the rows, under the schedule made of its own steps and
of the reader receiving each event sent on the output channel. -/
theorem C10_pushes_are_successful_parses (env : Env)
    (hok : env.NewReassembler = Except.ok ()) (hstr : LinesAreStrings env.rows) :
    (∀ steps s, AuditdPlugin.Call env steps = some s →
      ∃ consumed rest, env.rows = consumed ++ rest ∧
        pushes s.trace = parsedLines env.ParseLogLine consumed ∧
        (s.pc = MainPc.finished → rest = [])) ∧
    (∀ steps s, WatchAuditdPlugin.Call env steps = some s →
      ∃ consumed rest, env.rows = consumed ++ rest ∧
        pushes s.trace = parsedLines env.ParseLogLine consumed ∧
        (s.pc = MainPc.finished → rest = [])) ∧
    (∀ st ∈ drainedSchedule env, st = Step.main ∨ st = Step.recv false) ∧
    (∃ s, AuditdPlugin.Call env (drainedSchedule env) = some s ∧ s.pc = MainPc.finished ∧
      pushes s.trace = parsedLines env.ParseLogLine env.rows) ∧
    (∃ s, WatchAuditdPlugin.Call env (drainedSchedule env) = some s ∧
      s.pc = MainPc.finished ∧
      pushes s.trace = parsedLines env.ParseLogLine env.rows) := by
  refine ⟨?_, ?_, ?_, ?_, ?_⟩
  · intro steps s hrun
    exact pushed_are_parses_of_consumed env s
      (pushInv_run "parse_auditd" env hok hstr steps PState.init s (pushInv_init env) hrun)
  · intro steps s hrun
    exact pushed_are_parses_of_consumed env s
      (pushInv_run "watch_auditd" env hok hstr steps PState.init s (pushInv_init env) hrun)
  · intro st hst
    rcases List.mem_cons.1 hst with h | h
    · exact Or.inl h
    · exact drainedScan_steps env env.rows [] st h
  · obtain ⟨s, hrun, hfin⟩ := drainedSchedule_finishes "parse_auditd" env hok hstr
    exact ⟨s, hrun, hfin, finished_pushes_all env s
      (pushInv_run "parse_auditd" env hok hstr _ PState.init s (pushInv_init env) hrun) hfin⟩
  · obtain ⟨s, hrun, hfin⟩ := drainedSchedule_finishes "watch_auditd" env hok hstr
    exact ⟨s, hrun, hfin, finished_pushes_all env s
      (pushInv_run "watch_auditd" env hok hstr _ PState.init s (pushInv_init env) hrun) hfin⟩

theorem sampleEnv_LinesAreStrings : LinesAreStrings sampleEnv.rows := by
  intro row hrow v hv
  simp [sampleEnv] at hrow
  rcases hrow with h | h | h | h <;> subst h <;> simp [Dict.Get, List.lookup] at hv <;>
    exact ⟨_, hv.symm⟩

theorem C10_pushes_are_successful_parses_witness :
    LinesAreStrings sampleEnv.rows ∧
    drainedSchedule sampleEnv =
      [Step.main, Step.main, Step.main, Step.main, Step.main, Step.recv false, Step.main,
        Step.main, Step.main] ∧
    ∃ s, AuditdPlugin.Call sampleEnv (drainedSchedule sampleEnv) = some s ∧
      s.pc = MainPc.finished ∧
      pushes s.trace =
        [{ Sequence := 12, RecordType := "SYSCALL", Timestamp := 0, RawData := "type=SYSCALL" },
         { Sequence := 8, RecordType := "SYSCALL", Timestamp := 0, RawData := "type=EOE" }] :=
  have h := C10_pushes_are_successful_parses sampleEnv rfl sampleEnv_LinesAreStrings
  ⟨sampleEnv_LinesAreStrings, by decide,
    Exists.elim h.2.2.2.1 (fun s hs => ⟨s, hs.1, hs.2.1, hs.2.2.trans (by decide)⟩)⟩

end Syslog

end Velociraptor
